import Mathlib

/-!
Verification development for the gochat broadcast subsystem.

Shallow embedding of the room-hub / connection-session / hub-manager trio
(`internal/websocket`), the WebSocket admission handler
(`internal/handlers/websocket_handlers.go`) and the persistence queries
(`internal/services/room_service.go`).

Modelling conventions:
* Go channels (`chan []byte`) become `Chan`: a bounded buffer plus a closed
  flag.  A non-blocking send (`select`/`default`) on an open channel with
  room enqueues; on a full channel it takes the `default` branch; on a
  closed channel it faults (Go panics on send-to-closed).  `close` of an
  already closed channel likewise faults.  Faults are `Except.error ()`.
* Client pointers become numeric ids (`cid`); Go map iteration becomes list
  iteration in insertion order (the proved properties are order-insensitive).
* `time.Time` becomes `Nat` seconds; `time.Now()` is the `now` field carried
  by the state.
* The hub's control loop (`Hub.Run`) is the function `hubRun` consuming a
  list of the events it receives on its channels; events following a
  shutdown are returned unprocessed, because after `Run` returns nothing
  ever receives on `Register`/`Unregister`/`Broadcast` again.
-/

namespace Gochat

/-- `models.WebSocketMessage`: the structured frame marshalled to JSON. -/
structure WsMessage where
  type : String
  text : String := ""
  sender : String := ""
  timestamp : Nat := 0
  activeUsers : List String := []
  userCount : Nat := 0
deriving DecidableEq, Repr

/-- A payload travelling through a send channel or `Hub.Broadcast`: either a
raw text frame (the fallback path of `Client.ReadPump`) or a marshalled
structured message. -/
inductive Frame where
  | text (raw : String)
  | json (msg : WsMessage)
deriving DecidableEq, Repr

/-- A Go channel of frames: bounded buffer plus closed flag. -/
structure Chan where
  buf : List Frame
  cap : Nat
  closed : Bool
deriving DecidableEq, Repr

/-- A member of `Hub.clients`.  `cid` models the client pointer identity;
`username` is the display name used for `Hub.onlineUsers`. -/
structure Client where
  cid : Nat
  username : String
deriving DecidableEq, Repr

/-- A row of `active_sessions`. -/
structure SessionRow where
  userID : Nat
  roomID : Nat
  sessionID : String
  connectedAt : Nat
  lastSeen : Nat
deriving DecidableEq, Repr

/-- A row of `messages`. -/
structure MessageRow where
  userID : Nat
  roomID : Nat
  content : String
  createdAt : Nat
deriving DecidableEq, Repr

/-- A row of `rooms` (the fields the handler path reads). -/
structure RoomRow where
  id : Nat
  name : String
  isPublic : Bool
deriving DecidableEq, Repr

/-- One element of the result of `GetActiveUsersInRoom` (email omitted). -/
structure ActiveUser where
  id : Nat
  username : String
  connectedAt : Nat
  lastSeen : Nat
deriving DecidableEq, Repr

/-- The persistence layer state: `users` maps user id to username. -/
structure DB where
  users : List (Nat × String)
  sessions : List SessionRow
  messages : List MessageRow
deriving DecidableEq, Repr

/-- The shared store of send channels, keyed by client id.  In Go each
`Client.send` is one shared channel object mutated both by the hub loop and
by the client's own history-replay task; the heap makes that sharing
explicit. -/
abbrev Heap := List (Nat × Chan)

/-- Look up a client's channel. -/
def heapGet : Heap → Nat → Option Chan
  | [], _ => none
  | (k, ch) :: rest, cid => if k = cid then some ch else heapGet rest cid

/-- Replace a client's channel (no-op on an absent key; channels are created
before their client is ever used). -/
def heapSet : Heap → Nat → Chan → Heap
  | [], _, _ => []
  | (k, ch) :: rest, cid, ch2 =>
      if k = cid then (k, ch2) :: rest else (k, ch) :: heapSet rest cid ch2

theorem heapGet_heapSet_self (h : Heap) (k : Nat) (ch0 ch : Chan)
    (hk : heapGet h k = some ch0) : heapGet (heapSet h k ch) k = some ch := by
  induction h with
  | nil => simp [heapGet] at hk
  | cons p rest ih =>
      by_cases hp : p.1 = k
      · simp [heapGet, heapSet, hp]
      · simp only [heapGet, heapSet, hp, if_false] at hk ⊢
        exact ih hk

theorem heapGet_heapSet_ne (h : Heap) (k k2 : Nat) (ch : Chan)
    (hne : k2 ≠ k) : heapGet (heapSet h k ch) k2 = heapGet h k2 := by
  induction h with
  | nil => simp [heapSet]
  | cons p rest ih =>
      have hk2 : ¬ k = k2 := fun he => hne he.symm
      by_cases hp : p.1 = k
      · simp [heapGet, heapSet, hp, hk2]
      · by_cases hq : p.1 = k2
        · simp [heapGet, heapSet, hp, hq, hne, hk2]
        · simp [heapGet, heapSet, hp, hq, ih]

/-- Insert into a list sorted by the boolean comparison `le` (models the
`ORDER BY` clauses of the SQL queries). -/
def insertOrd (le : α → α → Bool) (a : α) : List α → List α
  | [] => [a]
  | b :: bs => if le a b then a :: b :: bs else b :: insertOrd le a bs

/-- Insertion sort by the boolean comparison `le`. -/
def sortOrd (le : α → α → Bool) : List α → List α
  | [] => []
  | a :: as => insertOrd le a (sortOrd le as)

theorem mem_insertOrd (le : α → α → Bool) (a x : α) (l : List α) :
    x ∈ insertOrd le a l ↔ x = a ∨ x ∈ l := by
  induction l with
  | nil => simp [insertOrd]
  | cons b bs ih =>
      by_cases hb : le a b = true
      · rw [insertOrd, if_pos hb]
        simp
      · rw [insertOrd, if_neg hb]
        simp only [List.mem_cons, ih]
        tauto

theorem pairwise_insertOrd (le : α → α → Bool)
    (htot : ∀ x y, le x y = true ∨ le y x = true)
    (htrans : ∀ x y z, le x y = true → le y z = true → le x z = true)
    (a : α) (l : List α)
    (hl : l.Pairwise (fun x y => le x y = true)) :
    (insertOrd le a l).Pairwise (fun x y => le x y = true) := by
  induction l with
  | nil => simp [insertOrd]
  | cons b bs ih =>
      rcases List.pairwise_cons.mp hl with ⟨hb, hbs⟩
      by_cases hab : le a b = true
      · rw [insertOrd, if_pos hab]
        refine List.pairwise_cons.mpr ⟨?_, hl⟩
        intro y hy
        rcases List.mem_cons.mp hy with rfl | hy2
        · exact hab
        · exact htrans a b y hab (hb y hy2)
      · have hba : le b a = true := by
          rcases htot a b with h | h
          · exact absurd h hab
          · exact h
        rw [insertOrd, if_neg hab]
        refine List.pairwise_cons.mpr ⟨?_, ih hbs⟩
        intro y hy
        rcases (mem_insertOrd le a y bs).mp hy with rfl | hy2
        · exact hba
        · exact hb y hy2

theorem mem_sortOrd (le : α → α → Bool) (x : α) (l : List α) :
    x ∈ sortOrd le l ↔ x ∈ l := by
  induction l with
  | nil => simp [sortOrd]
  | cons a as ih => simp [sortOrd, mem_insertOrd, ih]

theorem pairwise_sortOrd (le : α → α → Bool)
    (htot : ∀ x y, le x y = true ∨ le y x = true)
    (htrans : ∀ x y z, le x y = true → le y z = true → le x z = true)
    (l : List α) :
    (sortOrd le l).Pairwise (fun x y => le x y = true) := by
  induction l with
  | nil => simp [sortOrd]
  | cons a as ih => exact pairwise_insertOrd le htot htrans a _ ih

/-- Look up a username in the `users` table (the `JOIN users` of the
presence and history queries). -/
def findUser (users : List (Nat × String)) (uid : Nat) : Option String :=
  (users.find? (fun p => p.1 = uid)).map (fun p => p.2)

/-- `PostgresDB.CreateActiveSession`: upsert of the presence row keyed by
(user, room, session); on conflict only `last_seen` is refreshed. -/
def CreateActiveSession (db : DB) (u r : Nat) (s : String) (now : Nat) : DB :=
  if db.sessions.any (fun row =>
      row.userID = u ∧ row.roomID = r ∧ row.sessionID = s) then
    { db with sessions := db.sessions.map (fun row =>
        if row.userID = u ∧ row.roomID = r ∧ row.sessionID = s then
          { row with lastSeen := now } else row) }
  else
    { db with sessions := db.sessions ++ [⟨u, r, s, now, now⟩] }

/-- `PostgresDB.RemoveActiveSession`: delete the presence row keyed by
(user, room, session). -/
def RemoveActiveSession (db : DB) (u r : Nat) (s : String) : DB :=
  { db with sessions := db.sessions.filter (fun row =>
      ¬ (row.userID = u ∧ row.roomID = r ∧ row.sessionID = s)) }

/-- `PostgresDB.UpdateSessionActivity`: refresh `last_seen` of one row. -/
def UpdateSessionActivity (db : DB) (u r : Nat) (s : String) (now : Nat) : DB :=
  { db with sessions := db.sessions.map (fun row =>
      if row.userID = u ∧ row.roomID = r ∧ row.sessionID = s then
        { row with lastSeen := now } else row) }

/-- `PostgresDB.SaveMessage`: append a message row stamped `NOW()`. -/
def SaveMessage (db : DB) (u r : Nat) (content : String) (now : Nat) : DB :=
  { db with messages := db.messages ++ [⟨u, r, content, now⟩] }

/-- The stale-session purge at the top of `GetActiveUsersInRoom`: delete
(from all rooms) every session row unseen for more than 300 seconds. -/
def activeUsersPurge (db : DB) (now : Nat) : DB :=
  { db with sessions := db.sessions.filter (fun row => ¬ row.lastSeen + 300 < now) }

/-- The select of `GetActiveUsersInRoom`: the room's session rows joined
with `users`, made distinct, ordered by username. -/
def activeUsersQuery (db : DB) (roomID : Nat) : List ActiveUser :=
  sortOrd (fun a b => a.username ≤ b.username)
    ((db.sessions.filter (fun row => row.roomID = roomID)).filterMap
      (fun row => (findUser db.users row.userID).map
        (fun name => ⟨row.userID, name, row.connectedAt, row.lastSeen⟩))).dedup

/-- `PostgresDB.GetActiveUsersInRoom`: purge stale rows, then return the
distinct joined rows of the requested room ordered by username; the mutated
database is returned alongside the query result. -/
def GetActiveUsersInRoom (db : DB) (roomID now : Nat) : DB × List ActiveUser :=
  (activeUsersPurge db now, activeUsersQuery (activeUsersPurge db now) roomID)

/-- One element of the `LoadRecentMessages` result: a message row joined
with its sender's username (`models.Message` as filled by the query). -/
structure HistoryItem where
  content : String
  username : String
  createdAt : Nat
deriving DecidableEq, Repr

/-- The SQL of `LoadRecentMessages` before the Go-side reversal: the room's
joined messages ordered newest-first, truncated by `LIMIT`. -/
def recentMessagesQuery (db : DB) (roomID limit : Nat) : List HistoryItem :=
  (sortOrd (fun a b => b.createdAt ≤ a.createdAt)
    ((db.messages.filter (fun m => m.roomID = roomID)).filterMap
      (fun m => (findUser db.users m.userID).map
        (fun name => ⟨m.content, name, m.createdAt⟩)))).take limit

/-- `PostgresDB.LoadRecentMessages`: the newest-first query result reversed
in place, so oldest-first. -/
def LoadRecentMessages (db : DB) (roomID limit : Nat) : List HistoryItem :=
  (recentMessagesQuery db roomID limit).reverse

/-- `PostgresDB.GetOrCreateRoom`: upsert by room name returning the id; a
newly created room is public.  Fresh ids model the serial column. -/
def GetOrCreateRoom (rooms : List RoomRow) (nm : String) : Nat × List RoomRow :=
  match rooms.find? (fun r => r.name = nm) with
  | some r => (r.id, rooms)
  | none =>
      let rid := (rooms.map RoomRow.id).foldr max 0 + 1
      (rid, rooms ++ [⟨rid, nm, true⟩])

/-- `RoomService.CanUserAccessRoom`: public rooms admit everyone, private
rooms only members; `none` models the lookup error when the id is absent. -/
def CanUserAccessRoom (rooms : List RoomRow) (memberships : List (Nat × Nat))
    (u rid : Nat) : Option Bool :=
  match rooms.find? (fun r => r.id = rid) with
  | none => none
  | some room => if room.isPublic then some true else some ((u, rid) ∈ memberships)

/-- The state owned by one `Hub` control loop, together with the shared
channel heap and the persistence layer it reads through. -/
structure HubState where
  roomID : Nat
  clients : List Client
  onlineUsers : List String
  chans : Heap
  lastActivity : Nat
  db : DB
  now : Nat
deriving DecidableEq, Repr

/-- The events a `Hub.Run` loop can receive on its channels. -/
inductive Event where
  | register (c : Client)
  | unregister (c : Client)
  | broadcast (m : Frame)
  | shutdown
deriving DecidableEq, Repr

/-- `NewHub`: fresh hub for a room; the channel heap and database are the
ambient shared state the hub is wired to. -/
def NewHub (roomID : Nat) (chans : Heap) (db : DB) (now : Nat) : HubState :=
  { roomID := roomID, clients := [], onlineUsers := [], chans := chans,
    lastActivity := now, db := db, now := now }

/-- The presence frame marshalled by `broadcastPresenceUpdate` from a query
result (marshalling of this value type cannot fail in Go). -/
def presenceFrame (users : List ActiveUser) (now : Nat) : Frame :=
  Frame.json { type := "presence_update", timestamp := now,
               activeUsers := users.map ActiveUser.username,
               userCount := users.length }

/-- The fan-out loop body of `Hub.broadcastToAll` over a snapshot of the
membership: non-blocking send per client; a full channel gets closed and its
client evicted from `clients` and `onlineUsers`; a send reaching an
already-closed channel faults (Go panic). -/
def broadcastLoop (m : Frame) : List Client → HubState → Except Unit HubState
  | [], st => Except.ok st
  | c :: rest, st =>
      match heapGet st.chans c.cid with
      | none => broadcastLoop m rest st
      | some ch =>
          if ch.closed then Except.error ()
          else if ch.buf.length < ch.cap then
            broadcastLoop m rest
              { st with chans := heapSet st.chans c.cid { ch with buf := ch.buf ++ [m] } }
          else
            broadcastLoop m rest
              { st with
                clients := st.clients.filter (fun x => x.cid ≠ c.cid),
                onlineUsers := st.onlineUsers.filter (fun u => u ≠ c.username),
                chans := heapSet st.chans c.cid { ch with closed := true } }

/-- `Hub.broadcastToAll`: fan the frame out over the current membership. -/
def broadcastToAll (st : HubState) (m : Frame) : Except Unit HubState :=
  broadcastLoop m st.clients st

/-- `Hub.broadcastPresenceUpdate`: recompute the room's active users through
the persistence port (which also purges stale rows) and broadcast the
snapshot. -/
def broadcastPresenceUpdate (st : HubState) : Except Unit HubState :=
  let q := GetActiveUsersInRoom st.db st.roomID st.now
  broadcastToAll { st with db := q.1 } (presenceFrame q.2 st.now)

/-- The `Register` arm of `Hub.Run`: admit the client, stamp activity, mark
the username online, broadcast presence. -/
def registerStep (st : HubState) (c : Client) : Except Unit HubState :=
  broadcastPresenceUpdate
    { st with
      clients :=
        if st.clients.any (fun x => x.cid = c.cid) then st.clients
        else st.clients ++ [c],
      lastActivity := st.now,
      onlineUsers :=
        if st.onlineUsers.contains c.username then st.onlineUsers
        else st.onlineUsers ++ [c.username] }

/-- Close one client's channel; closing an already-closed channel faults
(Go panic on double close). -/
def closeChan (h : Heap) (cid : Nat) : Except Unit Heap :=
  match heapGet h cid with
  | none => Except.ok h
  | some ch =>
      if ch.closed then Except.error ()
      else Except.ok (heapSet h cid { ch with closed := true })

/-- The `Unregister` arm of `Hub.Run`: a no-op for a non-member; otherwise
remove the client, close its channel, delete its username from
`onlineUsers`, broadcast presence. -/
def unregisterStep (st : HubState) (c : Client) : Except Unit HubState :=
  if st.clients.any (fun x => x.cid = c.cid) then
    match closeChan st.chans c.cid with
    | Except.error e => Except.error e
    | Except.ok chans2 =>
        broadcastPresenceUpdate
          { st with
            clients := st.clients.filter (fun x => x.cid ≠ c.cid),
            onlineUsers := st.onlineUsers.filter (fun u => u ≠ c.username),
            chans := chans2 }
  else Except.ok st

/-- The shutdown arm of `Hub.Run`: close every member's channel. -/
def closeAllLoop : List Client → HubState → Except Unit HubState
  | [], st => Except.ok st
  | c :: rest, st =>
      match closeChan st.chans c.cid with
      | Except.error e => Except.error e
      | Except.ok chans2 => closeAllLoop rest { st with chans := chans2 }

/-- Close the channels of every currently registered client. -/
def closeAllClients (st : HubState) : Except Unit HubState :=
  closeAllLoop st.clients st

/-- The `lastActivity = time.Now()` stamp of the `Broadcast` arm. -/
def touchHub (st : HubState) : HubState :=
  { st with lastActivity := st.now }

/-- `Hub.Run`: process the received events strictly serially.  A shutdown
makes the loop exit; the events after it are returned unprocessed (their
senders stay blocked forever, since nothing receives on the hub's channels
once `Run` has returned). -/
def hubRun : HubState → List Event → Except Unit (HubState × List Event)
  | st, [] => Except.ok (st, [])
  | st, Event.shutdown :: rest =>
      match closeAllClients st with
      | Except.error e => Except.error e
      | Except.ok st2 => Except.ok (st2, rest)
  | st, Event.register c :: rest =>
      match registerStep st c with
      | Except.error e => Except.error e
      | Except.ok st2 => hubRun st2 rest
  | st, Event.unregister c :: rest =>
      match unregisterStep st c with
      | Except.error e => Except.error e
      | Except.ok st2 => hubRun st2 rest
  | st, Event.broadcast m :: rest =>
      match broadcastToAll (touchHub st) m with
      | Except.error e => Except.error e
      | Except.ok st2 => hubRun st2 rest

/-- `Hub.GetOnlineUserCount`: the size of `onlineUsers` (distinct usernames,
not the number of registered clients). -/
def GetOnlineUserCount (st : HubState) : Nat :=
  st.onlineUsers.length

/-- The `Manager` registry. -/
structure ManagerState where
  hubs : List (Nat × HubState)
deriving DecidableEq, Repr

/-- One tick of `Manager.cleanupUnusedHubs`: shut down and delete from the
registry every hub whose `GetOnlineUserCount` is zero. -/
def cleanupUnusedHubs (m : ManagerState) : ManagerState :=
  { hubs := m.hubs.filter (fun p => GetOnlineUserCount p.2 ≠ 0) }

/-- What the goroutine performing `hub.Register <- client` experiences. -/
inductive AdmitOutcome where
  | admitted
  | rejected
  | blocked
deriving DecidableEq, Repr

/-- Outcome of a registration request for client `c` within the event trace
`evs`: if the hub loop never consumes the request (it sits after a shutdown,
or the loop crashed), the sender blocks forever. -/
def admitOutcome (st : HubState) (evs : List Event) (c : Client) : AdmitOutcome :=
  match hubRun st evs with
  | Except.ok (_, leftover) =>
      if Event.register c ∈ leftover then AdmitOutcome.blocked
      else AdmitOutcome.admitted
  | Except.error _ => AdmitOutcome.blocked

/-- The per-connection identity carried by a `Client` struct, as used by the
inbound pump (`userID`, `roomID`, `sessionID`, display `username`). -/
structure ClientSession where
  userID : Nat
  roomID : Nat
  sessionID : String
  username : String
deriving DecidableEq, Repr

/-- The structured history event built by `Client.SendRecentMessages` for
one stored message: sender is the synthetic "system", the text prefixes the
original sender's username. -/
def encodeHistory (item : HistoryItem) : Frame :=
  Frame.json { type := "message",
               text := item.username ++ ": " ++ item.content,
               sender := "system",
               timestamp := item.createdAt }

/-- The enqueue loop of `Client.SendRecentMessages` over the loaded history:
per item a non-blocking send onto the session's own channel; if the channel
is full the code closes it and returns; a send reaching an already-closed
channel faults (Go panic on send-to-closed). -/
def sendRecentMessages (ch : Chan) : List HistoryItem → Except Unit Chan
  | [] => Except.ok ch
  | item :: rest =>
      if ch.closed then Except.error ()
      else if ch.buf.length < ch.cap then
        sendRecentMessages { ch with buf := ch.buf ++ [encodeHistory item] } rest
      else
        Except.ok { ch with closed := true }

/-- Handling of one inbound text frame by `Client.ReadPump` (after a
successful read): refresh `last_seen`, persist the message, build the
structured event; `marshalOk` is the outcome of `json.Marshal`.  Returns
the database, the frame handed to `Hub.Broadcast` (the raw text frame is
the fallback when marshalling fails), and whether the loop continues. -/
def readPumpHandleFrame (db : DB) (c : ClientSession) (raw : String)
    (now : Nat) (marshalOk : Bool) : DB × Option Frame × Bool :=
  let db1 := UpdateSessionActivity db c.userID c.roomID c.sessionID now
  let db2 := SaveMessage db1 c.userID c.roomID raw now
  if marshalOk then
    (db2, some (Frame.json { type := "message", text := raw,
                             sender := c.username, timestamp := now }), true)
  else
    (db2, some (Frame.text raw), true)

/-- The marshal guard of `Hub.broadcastPresenceUpdate` (lines 99-103): on a
marshal failure the snapshot is only logged, nothing is broadcast. -/
def presenceBroadcastOnMarshal (marshalOk : Bool) (f : Frame) : Option Frame :=
  if marshalOk then some f else none

/-- The decision reached by `HandleWebSocket` for one authenticated
connection (the room-resolution and access-check stage). -/
inductive ConnOutcome where
  | admitted (roomID : Nat)
  | rejected
deriving DecidableEq, Repr

/-- The room-parameter defaulting of `HandleWebSocket` (lines 51-54): an
absent query parameter reads as the empty string and defaults to
"general". -/
def resolveRoomParam (roomParam : String) : String :=
  if roomParam = "" then "general" else roomParam

/-- The room stage of `WebSocketHandlers.HandleWebSocket` for an already
authenticated user `u` (transport upgrade and session creation assumed to
succeed): the room named by the defaulted parameter is resolved or created
through the persistence port; the access check then rejects a non-member
of a private room. -/
def handleWebSocketConn (rooms : List RoomRow) (memberships : List (Nat × Nat))
    (u : Nat) (roomParam : String) : ConnOutcome × List RoomRow :=
  let res := GetOrCreateRoom rooms (resolveRoomParam roomParam)
  match CanUserAccessRoom res.2 memberships u res.1 with
  | none => (ConnOutcome.rejected, res.2)
  | some false => (ConnOutcome.rejected, res.2)
  | some true => (ConnOutcome.admitted res.1, res.2)

/-- A channel able to accept a non-blocking send: present, open, not full. -/
def chanReady (st : HubState) (c : Client) : Prop :=
  ∃ ch, heapGet st.chans c.cid = some ch ∧ ch.closed = false ∧
    ch.buf.length < ch.cap

/-- Fan-out over clients whose channels all have room: nobody is evicted,
every listed client's channel gets the frame appended, and every channel
not owned by a listed client is untouched. -/
theorem broadcastLoop_ok (m : Frame) :
    ∀ (todo : List Client) (st : HubState),
      (∀ c ∈ todo, chanReady st c) →
      (todo.map Client.cid).Nodup →
      ∃ st2, broadcastLoop m todo st = Except.ok st2 ∧
        st2.roomID = st.roomID ∧
        st2.clients = st.clients ∧
        st2.onlineUsers = st.onlineUsers ∧
        st2.lastActivity = st.lastActivity ∧
        st2.db = st.db ∧
        st2.now = st.now ∧
        (∀ cid, (∀ c ∈ todo, c.cid ≠ cid) →
          heapGet st2.chans cid = heapGet st.chans cid) ∧
        (∀ c ∈ todo, ∀ ch, heapGet st.chans c.cid = some ch →
          heapGet st2.chans c.cid = some { ch with buf := ch.buf ++ [m] }) := by
  intro todo
  induction todo with
  | nil =>
      intro st _ _
      exact ⟨st, rfl, rfl, rfl, rfl, rfl, rfl, rfl, fun _ _ => rfl, by simp⟩
  | cons c rest ih =>
      intro st hready hnodup
      obtain ⟨ch, hget, hcl, hroom⟩ := hready c (List.mem_cons_self c rest)
      have hnodup2 : (c.cid :: rest.map Client.cid).Nodup := by
        simpa using hnodup
      have hcidnot : c.cid ∉ rest.map Client.cid := (List.nodup_cons.mp hnodup2).1
      have hrestcid : ∀ x ∈ rest, x.cid ≠ c.cid := by
        intro x hx he
        exact hcidnot (he ▸ List.mem_map_of_mem Client.cid hx)
      set st2 : HubState :=
        { st with chans := heapSet st.chans c.cid { ch with buf := ch.buf ++ [m] } }
        with hst2
      have hchans2 : ∀ x ∈ rest, heapGet st2.chans x.cid = heapGet st.chans x.cid := by
        intro x hx
        exact heapGet_heapSet_ne st.chans c.cid x.cid _ (hrestcid x hx)
      have hready2 : ∀ x ∈ rest, chanReady st2 x := by
        intro x hx
        obtain ⟨chx, hgx, hclx, hrx⟩ := hready x (List.mem_cons_of_mem c hx)
        exact ⟨chx, (hchans2 x hx).trans hgx, hclx, hrx⟩
      obtain ⟨st3, hrun, hq1, hq2, hq3, hq4, hq5, hq6, hframe, hdeliv⟩ :=
        ih st2 hready2 (List.nodup_cons.mp hnodup2).2
      have hstep : broadcastLoop m (c :: rest) st = broadcastLoop m rest st2 := by
        rw [hst2]
        simp only [broadcastLoop, hget]
        rw [if_neg (by rw [hcl]; simp), if_pos hroom]
      have hsend : broadcastLoop m (c :: rest) st = Except.ok st3 :=
        hstep.trans hrun
      refine ⟨st3, hsend, hq1, hq2, hq3, hq4, hq5, hq6, ?_, ?_⟩
      · intro cid hcid
        have h1 : heapGet st3.chans cid = heapGet st2.chans cid :=
          hframe cid (fun x hx => hcid x (List.mem_cons_of_mem c hx))
        have h2 : heapGet st2.chans cid = heapGet st.chans cid :=
          heapGet_heapSet_ne st.chans c.cid cid _
            (fun he => hcid c (List.mem_cons_self c rest) he.symm)
        exact h1.trans h2
      · intro x hx ch0 hch0
        rcases List.mem_cons.mp hx with rfl | hx2
        · have he : ch0 = ch := by
            have := hch0.symm.trans hget
            exact Option.some.inj this
          subst he
          have h1 : heapGet st3.chans x.cid = heapGet st2.chans x.cid :=
            hframe x.cid (fun y hy => hrestcid y hy)
          have h2 : heapGet st2.chans x.cid =
              some { ch0 with buf := ch0.buf ++ [m] } :=
            heapGet_heapSet_self st.chans x.cid ch0 _ hget
          exact h1.trans h2
        · have h2 : heapGet st2.chans x.cid = some ch0 :=
            (hchans2 x hx2).trans hch0
          exact hdeliv x hx2 ch0 h2

/-- C1: a `Publish` processed by the hub's control loop while the admitted
sessions' outbound queues all have room enqueues the payload onto every
admitted session's queue, leaves the membership unchanged, and touches no
queue not owned by a member at the instant of processing. -/
theorem publish_delivers_to_all_members (st : HubState) (m : Frame)
    (hnodup : (st.clients.map Client.cid).Nodup)
    (hready : ∀ c ∈ st.clients, chanReady st c) :
    ∃ st2, hubRun st [Event.broadcast m] = Except.ok (st2, []) ∧
      st2.clients = st.clients ∧
      (∀ c ∈ st.clients, ∀ ch, heapGet st.chans c.cid = some ch →
        heapGet st2.chans c.cid = some { ch with buf := ch.buf ++ [m] }) ∧
      (∀ cid, (∀ c ∈ st.clients, c.cid ≠ cid) →
        heapGet st2.chans cid = heapGet st.chans cid) := by
  have hready1 : ∀ c ∈ (touchHub st).clients, chanReady (touchHub st) c := hready
  obtain ⟨st2, hrun, _, hcl, _, _, _, _, hframe, hdeliv⟩ :=
    broadcastLoop_ok m (touchHub st).clients (touchHub st) hready1 hnodup
  refine ⟨st2, ?_, hcl, hdeliv, hframe⟩
  simp only [hubRun, broadcastToAll]
  rw [hrun]

def w1Client1 : Client := ⟨1, "alice"⟩

def w1Client2 : Client := ⟨2, "bob"⟩

def w1Hub : HubState :=
  { roomID := 7, clients := [w1Client1, w1Client2],
    onlineUsers := ["alice", "bob"],
    chans := [(1, ⟨[], 2, false⟩), (2, ⟨[], 2, false⟩)], lastActivity := 0,
    db := ⟨[], [], []⟩, now := 0 }

def w1Frame : Frame := Frame.text "hi"

/-- Witness for C1 at a concrete two-member hub. -/
theorem publish_delivers_to_all_members_witness :
    ∃ st2, hubRun w1Hub [Event.broadcast w1Frame] = Except.ok (st2, []) ∧
      st2.clients = w1Hub.clients ∧
      (∀ c ∈ w1Hub.clients, ∀ ch, heapGet w1Hub.chans c.cid = some ch →
        heapGet st2.chans c.cid = some { ch with buf := ch.buf ++ [w1Frame] }) ∧
      (∀ cid, (∀ c ∈ w1Hub.clients, c.cid ≠ cid) →
        heapGet st2.chans cid = heapGet w1Hub.chans cid) :=
  publish_delivers_to_all_members w1Hub w1Frame (by decide)
    (by
      intro c hc
      rcases List.mem_cons.mp hc with rfl | hc2
      · exact ⟨⟨[], 2, false⟩, rfl, rfl, by decide⟩
      · rcases List.mem_cons.mp hc2 with rfl | hc3
        · exact ⟨⟨[], 2, false⟩, rfl, rfl, by decide⟩
        · exact absurd hc3 (List.not_mem_nil _))

/-- Fan-out when exactly the distinguished member `star` has a full (open)
channel and every other member's channel has room: `star` is evicted and its
channel closed with its buffer unchanged, every other member's channel gets
the frame, and unrelated channels are untouched. -/
theorem broadcastLoop_oneFull (m : Frame) (star : Client) (chstar : Chan)
    (hopen : chstar.closed = false) (hfull : ¬ chstar.buf.length < chstar.cap) :
    ∀ (todo : List Client) (st : HubState),
      star ∈ todo →
      (todo.map Client.cid).Nodup →
      heapGet st.chans star.cid = some chstar →
      (∀ c ∈ todo, c.cid ≠ star.cid → chanReady st c) →
      ∃ st2, broadcastLoop m todo st = Except.ok st2 ∧
        st2.roomID = st.roomID ∧
        st2.clients = st.clients.filter (fun x => x.cid ≠ star.cid) ∧
        st2.onlineUsers = st.onlineUsers.filter (fun u => u ≠ star.username) ∧
        st2.db = st.db ∧
        st2.now = st.now ∧
        st2.lastActivity = st.lastActivity ∧
        heapGet st2.chans star.cid = some { chstar with closed := true } ∧
        (∀ c ∈ todo, c.cid ≠ star.cid → ∀ ch, heapGet st.chans c.cid = some ch →
          heapGet st2.chans c.cid = some { ch with buf := ch.buf ++ [m] }) ∧
        (∀ cid, cid ≠ star.cid → (∀ c ∈ todo, c.cid ≠ cid) →
          heapGet st2.chans cid = heapGet st.chans cid) := by
  intro todo
  induction todo with
  | nil =>
      intro st hmem
      exact absurd hmem (List.not_mem_nil star)
  | cons c rest ih =>
      intro st hmem hnodup hstar hready
      have hnodup2 : (c.cid :: rest.map Client.cid).Nodup := by simpa using hnodup
      have hcidnot : c.cid ∉ rest.map Client.cid := (List.nodup_cons.mp hnodup2).1
      have hrestcid : ∀ x ∈ rest, x.cid ≠ c.cid := by
        intro x hx he
        exact hcidnot (he ▸ List.mem_map_of_mem Client.cid hx)
      by_cases hc : c.cid = star.cid
      · have hceq : star = c := by
          rcases List.mem_cons.mp hmem with h | h
          · exact h
          · exact absurd (hc ▸ List.mem_map_of_mem Client.cid h) hcidnot
        subst hceq
        set st2 : HubState :=
          { st with
            clients := st.clients.filter (fun x => x.cid ≠ star.cid),
            onlineUsers := st.onlineUsers.filter (fun u => u ≠ star.username),
            chans := heapSet st.chans star.cid { chstar with closed := true } }
          with hst2
        have hstep : broadcastLoop m (star :: rest) st = broadcastLoop m rest st2 := by
          rw [hst2]
          simp only [broadcastLoop, hstar]
          rw [if_neg (by rw [hopen]; simp), if_neg hfull]
        have hready2 : ∀ x ∈ rest, chanReady st2 x := by
          intro x hx
          obtain ⟨chx, hgx, hclx, hrx⟩ :=
            hready x (List.mem_cons_of_mem star hx) (hrestcid x hx)
          refine ⟨chx, ?_, hclx, hrx⟩
          rw [hst2]
          exact (heapGet_heapSet_ne st.chans star.cid x.cid _ (hrestcid x hx)).trans hgx
        obtain ⟨st3, hrun, hq1, hq2, hq3, hq4, hq5, hq6, hframe, hdeliv⟩ :=
          broadcastLoop_ok m rest st2 hready2 (List.nodup_cons.mp hnodup2).2
        refine ⟨st3, hstep.trans hrun, hq1, hq2, hq3, hq5, hq6, hq4, ?_, ?_, ?_⟩
        · have h1 : heapGet st3.chans star.cid = heapGet st2.chans star.cid :=
            hframe star.cid (fun y hy => hrestcid y hy)
          have h2 : heapGet st2.chans star.cid = some { chstar with closed := true } :=
            heapGet_heapSet_self st.chans star.cid chstar _ hstar
          exact h1.trans h2
        · intro x hx hxne ch0 hch0
          rcases List.mem_cons.mp hx with rfl | hx2
          · exact absurd rfl hxne
          · have h2 : heapGet st2.chans x.cid = some ch0 := by
              rw [hst2]
              exact (heapGet_heapSet_ne st.chans star.cid x.cid _
                (hrestcid x hx2)).trans hch0
            exact hdeliv x hx2 ch0 h2
        · intro cid hcidne hcidall
          have h1 : heapGet st3.chans cid = heapGet st2.chans cid :=
            hframe cid (fun y hy => hcidall y (List.mem_cons_of_mem star hy))
          have h2 : heapGet st2.chans cid = heapGet st.chans cid := by
            rw [hst2]
            exact heapGet_heapSet_ne st.chans star.cid cid _ hcidne
          exact h1.trans h2
      · have hstarrest : star ∈ rest := by
          rcases List.mem_cons.mp hmem with h | h
          · exact absurd (congrArg Client.cid h).symm hc
          · exact h
        obtain ⟨ch, hget, hcl, hroom⟩ :=
          hready c (List.mem_cons_self c rest) hc
        set st2 : HubState :=
          { st with chans := heapSet st.chans c.cid { ch with buf := ch.buf ++ [m] } }
          with hst2
        have hstep : broadcastLoop m (c :: rest) st = broadcastLoop m rest st2 := by
          rw [hst2]
          simp only [broadcastLoop, hget]
          rw [if_neg (by rw [hcl]; simp), if_pos hroom]
        have hstar2 : heapGet st2.chans star.cid = some chstar := by
          rw [hst2]
          have : star.cid ≠ c.cid := fun he => hc he.symm
          exact (heapGet_heapSet_ne st.chans c.cid star.cid _ this).trans hstar
        have hready2 : ∀ x ∈ rest, x.cid ≠ star.cid → chanReady st2 x := by
          intro x hx hxne
          obtain ⟨chx, hgx, hclx, hrx⟩ :=
            hready x (List.mem_cons_of_mem c hx) hxne
          refine ⟨chx, ?_, hclx, hrx⟩
          rw [hst2]
          exact (heapGet_heapSet_ne st.chans c.cid x.cid _ (hrestcid x hx)).trans hgx
        obtain ⟨st3, hrun, hq1, hq2, hq3, hq4, hq5, hq6, hstarch, hdeliv, hframe⟩ :=
          ih st2 hstarrest (List.nodup_cons.mp hnodup2).2 hstar2 hready2
        refine ⟨st3, hstep.trans hrun, hq1, hq2, hq3, hq4, hq5, hq6, hstarch, ?_, ?_⟩
        · intro x hx hxne ch0 hch0
          rcases List.mem_cons.mp hx with rfl | hx2
          · have he : ch0 = ch := Option.some.inj (hch0.symm.trans hget)
            subst he
            have h1 : heapGet st3.chans x.cid = heapGet st2.chans x.cid :=
              hframe x.cid hxne (fun y hy => hrestcid y hy)
            have h2 : heapGet st2.chans x.cid =
                some { ch0 with buf := ch0.buf ++ [m] } := by
              rw [hst2]
              exact heapGet_heapSet_self st.chans x.cid ch0 _ hget
            exact h1.trans h2
          · have h2 : heapGet st2.chans x.cid = some ch0 := by
              rw [hst2]
              exact (heapGet_heapSet_ne st.chans c.cid x.cid _
                (hrestcid x hx2)).trans hch0
            exact hdeliv x hx2 hxne ch0 h2
        · intro cid hcidne hcidall
          have h1 : heapGet st3.chans cid = heapGet st2.chans cid :=
            hframe cid hcidne (fun y hy => hcidall y (List.mem_cons_of_mem c hy))
          have h2 : heapGet st2.chans cid = heapGet st.chans cid := by
            rw [hst2]
            exact heapGet_heapSet_ne st.chans c.cid cid _
              (fun he => hcidall c (List.mem_cons_self c rest) he.symm)
          exact h1.trans h2

/-- C2: a broadcast processed while member `star`'s queue is full evicts
`star` from membership and closes its queue with the buffer unchanged, so
`star` receives neither the overflowing message nor the following one,
while every other member's enqueue succeeds for both messages. -/
theorem broadcast_evicts_slow_member (st : HubState) (m1 m2 : Frame)
    (star : Client) (chstar : Chan)
    (hmem : star ∈ st.clients)
    (hnodup : (st.clients.map Client.cid).Nodup)
    (hstar : heapGet st.chans star.cid = some chstar)
    (hopen : chstar.closed = false)
    (hfull : ¬ chstar.buf.length < chstar.cap)
    (hothers : ∀ c ∈ st.clients, c.cid ≠ star.cid →
      ∃ ch, heapGet st.chans c.cid = some ch ∧ ch.closed = false ∧
        ch.buf.length + 2 ≤ ch.cap) :
    ∃ st2, hubRun st [Event.broadcast m1, Event.broadcast m2] =
        Except.ok (st2, []) ∧
      star ∉ st2.clients ∧
      st2.clients = st.clients.filter (fun x => x.cid ≠ star.cid) ∧
      heapGet st2.chans star.cid = some { chstar with closed := true } ∧
      (∀ c ∈ st.clients, c.cid ≠ star.cid →
        ∀ ch, heapGet st.chans c.cid = some ch →
          heapGet st2.chans c.cid = some { ch with buf := ch.buf ++ [m1, m2] }) := by
  have hreadyT : ∀ c ∈ (touchHub st).clients, c.cid ≠ star.cid →
      chanReady (touchHub st) c := by
    intro c hc hne
    obtain ⟨ch, hg, hc1, hc2⟩ := hothers c hc hne
    exact ⟨ch, hg, hc1, by omega⟩
  obtain ⟨stA, hrunA, _, hclA, _, _, _, _, hstarA, hdelivA, hframeA⟩ :=
    broadcastLoop_oneFull m1 star chstar hopen hfull (touchHub st).clients
      (touchHub st) hmem hnodup hstar hreadyT
  have hclA2 : stA.clients = st.clients.filter (fun x => x.cid ≠ star.cid) := hclA
  have hmemA : ∀ c ∈ stA.clients, c ∈ st.clients ∧ c.cid ≠ star.cid := by
    intro c hc
    rw [hclA2] at hc
    have := List.mem_filter.mp hc
    exact ⟨this.1, by simpa using this.2⟩
  have hreadyA : ∀ c ∈ (touchHub stA).clients, chanReady (touchHub stA) c := by
    intro c hc
    obtain ⟨hcst, hne⟩ := hmemA c hc
    obtain ⟨ch, hg, hc1, hc2⟩ := hothers c hcst hne
    refine ⟨{ ch with buf := ch.buf ++ [m1] }, hdelivA c hcst hne ch hg, hc1, ?_⟩
    simp only [List.length_append, List.length_cons, List.length_nil]
    omega
  have hnodupA : (stA.clients.map Client.cid).Nodup := by
    rw [hclA2]
    exact hnodup.sublist ((List.filter_sublist _).map Client.cid)
  obtain ⟨stB, hrunB, _, hclB, _, _, _, _, hframeB, hdelivB⟩ :=
    broadcastLoop_ok m2 (touchHub stA).clients (touchHub stA) hreadyA hnodupA
  have hrun : hubRun st [Event.broadcast m1, Event.broadcast m2] =
      Except.ok (stB, []) := by
    simp only [hubRun, broadcastToAll]
    rw [hrunA]
    simp only [hubRun, broadcastToAll]
    rw [hrunB]
  have hclB2 : stB.clients = st.clients.filter (fun x => x.cid ≠ star.cid) :=
    hclB.trans hclA2
  refine ⟨stB, hrun, ?_, hclB2, ?_, ?_⟩
  · rw [hclB2]
    intro hcon
    have := (List.mem_filter.mp hcon).2
    simp at this
  · have h1 : heapGet stB.chans star.cid = heapGet stA.chans star.cid :=
      hframeB star.cid (fun y hy => (hmemA y hy).2)
    exact h1.trans hstarA
  · intro c hc hne ch hch
    have hcA : c ∈ stA.clients := by
      rw [hclA2]
      refine List.mem_filter.mpr ⟨hc, by simpa using hne⟩
    have h1 : heapGet stA.chans c.cid = some { ch with buf := ch.buf ++ [m1] } :=
      hdelivA c hc hne ch hch
    have h2 := hdelivB c hcA _ h1
    have h3 : ({ ch with buf := ch.buf ++ [m1] } : Chan).buf ++ [m2] =
        ch.buf ++ [m1, m2] := by
      simp
    rw [h2]
    exact congrArg some (by simp [Chan.mk.injEq, h3])

def w2Star : Client := ⟨1, "alice"⟩

def w2Other : Client := ⟨2, "bob"⟩

def w2StarChan : Chan := ⟨[Frame.text "old"], 1, false⟩

def w2Hub : HubState :=
  { roomID := 7, clients := [w2Star, w2Other],
    onlineUsers := ["alice", "bob"],
    chans := [(1, w2StarChan), (2, ⟨[], 2, false⟩)], lastActivity := 0,
    db := ⟨[], [], []⟩, now := 0 }

/-- Witness for C2 at a concrete hub whose first member's queue is full. -/
theorem broadcast_evicts_slow_member_witness :
    ∃ st2, hubRun w2Hub [Event.broadcast (Frame.text "m1"),
        Event.broadcast (Frame.text "m2")] = Except.ok (st2, []) ∧
      w2Star ∉ st2.clients ∧
      st2.clients = w2Hub.clients.filter (fun x => x.cid ≠ w2Star.cid) ∧
      heapGet st2.chans w2Star.cid = some { w2StarChan with closed := true } ∧
      (∀ c ∈ w2Hub.clients, c.cid ≠ w2Star.cid →
        ∀ ch, heapGet w2Hub.chans c.cid = some ch →
          heapGet st2.chans c.cid =
            some { ch with buf := ch.buf ++ [Frame.text "m1", Frame.text "m2"] }) :=
  broadcast_evicts_slow_member w2Hub (Frame.text "m1") (Frame.text "m2")
    w2Star w2StarChan (by decide) (by decide) rfl rfl (by decide)
    (by
      intro c hc hne
      rcases List.mem_cons.mp hc with rfl | hc2
      · exact absurd rfl hne
      · rcases List.mem_cons.mp hc2 with rfl | hc3
        · exact ⟨⟨[], 2, false⟩, rfl, rfl, by decide⟩
        · exact absurd hc3 (List.not_mem_nil _))

def c3Heap : Heap := [(1, ⟨[], 256, false⟩), (2, ⟨[], 256, false⟩)]

def c3Hub : HubState := NewHub 7 c3Heap ⟨[], [], []⟩ 0

/-- Two simultaneous sessions of the same username, then one leaves. -/
def c3Events : List Event :=
  [Event.register ⟨1, "alice"⟩, Event.register ⟨2, "alice"⟩,
   Event.unregister ⟨1, "alice"⟩]

/-- C3: violated by the code.  After admitting two sessions that share the
username "alice" and removing one of them, the hub still has one registered
client but `GetOnlineUserCount` (the size of the username set, which the
`Unregister` arm emptied) is zero, so the manager sweep
`cleanupUnusedHubs` deletes the hub from the registry even though its
membership set is non-empty. -/
theorem cleanup_deletes_hub_with_live_member :
    (hubRun c3Hub c3Events).toOption.map
      (fun p => (p.1.clients, GetOnlineUserCount p.1,
        (cleanupUnusedHubs ⟨[(7, p.1)]⟩).hubs.map Prod.fst)) =
    some ([⟨2, "alice"⟩], 0, []) := by decide

/-- Events fully processed without a shutdown extend: the loop then
continues with the remaining events from the reached state. -/
theorem hubRun_append (evs2 : List Event) :
    ∀ (pre : List Event) (st st1 : HubState),
      Event.shutdown ∉ pre →
      hubRun st pre = Except.ok (st1, []) →
      hubRun st (pre ++ evs2) = hubRun st1 evs2 := by
  intro pre
  induction pre with
  | nil =>
      intro st st1 _ h
      simp only [hubRun] at h
      obtain ⟨rfl, -⟩ := Prod.mk.injEq .. ▸ (Except.ok.inj h)
      rfl
  | cons e pre2 ih =>
      intro st st1 hpre h
      have hpre2 : Event.shutdown ∉ pre2 := fun hx => hpre (List.mem_cons_of_mem e hx)
      cases e with
      | shutdown => exact absurd (List.mem_cons_self _ _) hpre
      | register c =>
          cases hreg : registerStep st c with
          | error e2 => rw [hubRun, hreg] at h; cases h
          | ok s =>
              rw [hubRun, hreg] at h
              rw [List.cons_append, hubRun, hreg]
              exact ih s st1 hpre2 h
      | unregister c =>
          cases hreg : unregisterStep st c with
          | error e2 => rw [hubRun, hreg] at h; cases h
          | ok s =>
              rw [hubRun, hreg] at h
              rw [List.cons_append, hubRun, hreg]
              exact ih s st1 hpre2 h
      | broadcast m =>
          cases hreg : broadcastToAll (touchHub st) m with
          | error e2 => rw [hubRun, hreg] at h; cases h
          | ok s =>
              rw [hubRun, hreg] at h
              rw [List.cons_append, hubRun, hreg]
              exact ih s st1 hpre2 h

/-- C4 amended: a registration delivered after the hub's loop has processed
shutdown is never consumed — the requesting goroutine blocks forever and no
rejection is ever delivered (the code has no rejection path at all). -/
theorem admit_after_shutdown_blocks_forever
    (st st1 : HubState) (pre rest : List Event) (c : Client)
    (hpre : Event.shutdown ∉ pre)
    (hrun : hubRun st pre = Except.ok (st1, []))
    (hc : Event.register c ∈ rest) :
    admitOutcome st (pre ++ Event.shutdown :: rest) c = AdmitOutcome.blocked := by
  have h := hubRun_append (Event.shutdown :: rest) pre st st1 hpre hrun
  unfold admitOutcome
  rw [h]
  cases hcl : closeAllClients st1 with
  | error e => rw [hubRun, hcl]
  | ok st2 => rw [hubRun, hcl]; simp [hc]

def c4Hub : HubState := NewHub 3 [] ⟨[], [], []⟩ 0

def c4Client : Client := ⟨1, "alice"⟩

/-- C4 counterexample: a registration arriving after shutdown gets no
"room no longer available" failure — it is simply never processed (the
sender blocks forever), which is not the rejection the claim asserts. -/
theorem admit_after_shutdown_not_rejected :
    admitOutcome c4Hub [Event.shutdown, Event.register c4Client] c4Client =
      AdmitOutcome.blocked ∧
    AdmitOutcome.blocked ≠ AdmitOutcome.rejected := by decide

/-- Witness for the amended C4 at a concrete empty hub. -/
theorem admit_after_shutdown_blocks_forever_witness :
    admitOutcome c4Hub ([] ++ Event.shutdown :: [Event.register c4Client])
      c4Client = AdmitOutcome.blocked :=
  admit_after_shutdown_blocks_forever c4Hub c4Hub [] [Event.register c4Client]
    c4Client (by decide) rfl (by decide)

theorem create_session_users (db : DB) (u r : Nat) (s : String) (now : Nat) :
    (CreateActiveSession db u r s now).users = db.users := by
  unfold CreateActiveSession
  split <;> rfl

/-- After `CreateActiveSession`, a row for (user, room) with `last_seen`
stamped `now` is present. -/
theorem create_session_mem (db : DB) (u r : Nat) (s : String) (now : Nat) :
    ∃ row ∈ (CreateActiveSession db u r s now).sessions,
      row.userID = u ∧ row.roomID = r ∧ row.lastSeen = now := by
  unfold CreateActiveSession
  by_cases h : db.sessions.any (fun row =>
      row.userID = u ∧ row.roomID = r ∧ row.sessionID = s)
  · rw [if_pos h]
    obtain ⟨row, hrow, hp⟩ := List.any_eq_true.mp h
    have hp2 : row.userID = u ∧ row.roomID = r ∧ row.sessionID = s :=
      of_decide_eq_true hp
    refine ⟨{ row with lastSeen := now }, ?_, hp2.1, hp2.2.1, rfl⟩
    have hmem := List.mem_map_of_mem (fun row : SessionRow =>
      if row.userID = u ∧ row.roomID = r ∧ row.sessionID = s then
        { row with lastSeen := now } else row) hrow
    simpa [if_pos hp2] using hmem
  · rw [if_neg h]
    exact ⟨⟨u, r, s, now, now⟩, by simp, rfl, rfl, rfl⟩

/-- Snapshot membership, introduction direction: a session row of the room
that joins with a user row yields a snapshot entry. -/
theorem mem_activeUsersQuery_of_row (db : DB) (roomID : Nat) (row : SessionRow)
    (name : String) (hrow : row ∈ db.sessions) (hroom : row.roomID = roomID)
    (hfind : findUser db.users row.userID = some name) :
    (⟨row.userID, name, row.connectedAt, row.lastSeen⟩ : ActiveUser) ∈
      activeUsersQuery db roomID := by
  unfold activeUsersQuery
  rw [mem_sortOrd, List.mem_dedup]
  exact List.mem_filterMap.mpr
    ⟨row, List.mem_filter.mpr ⟨hrow, by simp [hroom]⟩, by rw [hfind]; rfl⟩

/-- Snapshot membership, elimination direction: every snapshot entry comes
from a session row of the room with the entry's user id. -/
theorem row_of_mem_activeUsersQuery (db : DB) (roomID : Nat) (a : ActiveUser)
    (ha : a ∈ activeUsersQuery db roomID) :
    ∃ row ∈ db.sessions, row.roomID = roomID ∧ a.id = row.userID := by
  unfold activeUsersQuery at ha
  rw [mem_sortOrd, List.mem_dedup] at ha
  obtain ⟨row, hrow, hmap⟩ := List.mem_filterMap.mp ha
  obtain ⟨hrow2, hpred⟩ := List.mem_filter.mp hrow
  obtain ⟨name, -, hval⟩ := Option.map_eq_some'.mp hmap
  exact ⟨row, hrow2, by simpa using hpred, by rw [← hval]⟩

/-- C5 amended: the presence snapshot computed after `CreateActiveSession`
always contains the newly admitted user (whose user row exists); the
snapshot computed after `RemoveActiveSession` omits the removed user only
when the removed row was that user's last session row for the room — a
second simultaneous session of the same user keeps the user in the
snapshot. -/
theorem presence_snapshot_after_write (db : DB) (u r : Nat) (s : String)
    (now : Nat) (name : String)
    (hu : findUser db.users u = some name) :
    (∃ a ∈ (GetActiveUsersInRoom (CreateActiveSession db u r s now) r now).2,
        a.id = u ∧ a.username = name) ∧
    ((∀ row ∈ (RemoveActiveSession db u r s).sessions,
        ¬ (row.userID = u ∧ row.roomID = r)) →
      ∀ a ∈ (GetActiveUsersInRoom (RemoveActiveSession db u r s) r now).2,
        a.id ≠ u) := by
  constructor
  · obtain ⟨row, hrow, hrwu, hrwr, hrwl⟩ := create_session_mem db u r s now
    have hrowp : row ∈ (activeUsersPurge (CreateActiveSession db u r s now) now).sessions := by
      unfold activeUsersPurge
      refine List.mem_filter.mpr ⟨hrow, ?_⟩
      rw [hrwl]
      simp
    have husers : (activeUsersPurge (CreateActiveSession db u r s now) now).users =
        db.users := create_session_users db u r s now
    have hfind : findUser (activeUsersPurge (CreateActiveSession db u r s now) now).users
        row.userID = some name := by
      rw [husers, hrwu]
      exact hu
    refine ⟨⟨row.userID, name, row.connectedAt, row.lastSeen⟩,
      mem_activeUsersQuery_of_row _ r row name hrowp hrwr hfind, hrwu, rfl⟩
  · intro hno a ha
    obtain ⟨row, hrow, hroom, hid⟩ := row_of_mem_activeUsersQuery _ r a ha
    have hrow2 : row ∈ (RemoveActiveSession db u r s).sessions := by
      unfold activeUsersPurge at hrow
      exact (List.mem_filter.mp hrow).1
    intro he
    exact hno row hrow2 ⟨by rw [← hid, he], hroom⟩

/-- A user with two simultaneous sessions in room 1. -/
def c5DB : DB :=
  ⟨[(1, "alice")], [⟨1, 1, "a", 100, 400⟩, ⟨1, 1, "b", 100, 400⟩], []⟩

/-- C5 counterexample: after removing one of user 1's two sessions, the
presence snapshot still contains user 1 — the claim asserts the removed
user never appears in the snapshot broadcast for the remove. -/
theorem presence_after_remove_still_contains_user :
    (GetActiveUsersInRoom (RemoveActiveSession c5DB 1 1 "a") 1 500).2.map
      ActiveUser.id = [1] := by decide

def c5DB2 : DB := ⟨[(2, "bob")], [⟨2, 5, "s1", 10, 10⟩], []⟩

/-- Witness for the amended C5 at a concrete database where the removed
session is the user's only one. -/
theorem presence_snapshot_after_write_witness :
    (∃ a ∈ (GetActiveUsersInRoom (CreateActiveSession c5DB2 2 5 "s1" 20) 5 20).2,
        a.id = 2 ∧ a.username = "bob") ∧
    (∀ a ∈ (GetActiveUsersInRoom (RemoveActiveSession c5DB2 2 5 "s1") 5 20).2,
        a.id ≠ 2) :=
  ⟨(presence_snapshot_after_write c5DB2 2 5 "s1" 20 "bob" rfl).1,
   (presence_snapshot_after_write c5DB2 2 5 "s1" 20 "bob" rfl).2 (by decide)⟩

def c6Chan : Chan := ⟨[Frame.text "pending"], 1, false⟩

def c6Item : HistoryItem := ⟨"hello", "bob", 3⟩

/-- C6 counterexample: with the outbound queue full and open, the history
replay returns without error but closes the queue — the queue does not
remain in its prior state as the claim asserts. -/
theorem replay_on_full_queue_closes_it :
    sendRecentMessages c6Chan [c6Item] = Except.ok { c6Chan with closed := true } ∧
    c6Chan.closed = false := ⟨rfl, rfl⟩

/-- C6 amended: if the session's outbound queue is full (and open) when the
history replay's enqueue runs, the replay stops without returning an error
but closes the queue, leaving the buffered frames unchanged; if the queue
is already closed, the enqueue attempt faults (Go panics on a send to a
closed channel).  The replay touches nothing besides the channel — in
particular the hub's membership is not consulted or changed. -/
theorem replay_on_full_or_closed_queue (ch : Chan) (item : HistoryItem)
    (rest : List HistoryItem) :
    (ch.closed = false → ¬ ch.buf.length < ch.cap →
      sendRecentMessages ch (item :: rest) =
        Except.ok { ch with closed := true }) ∧
    (ch.closed = true →
      sendRecentMessages ch (item :: rest) = Except.error ()) := by
  constructor
  · intro hcl hfull
    unfold sendRecentMessages
    rw [if_neg (by rw [hcl]; simp), if_neg hfull]
  · intro hcl
    unfold sendRecentMessages
    rw [if_pos hcl]

/-- Witness for the amended C6: a full open queue is closed by the replay;
an already-closed queue makes the enqueue fault. -/
theorem replay_on_full_or_closed_queue_witness :
    sendRecentMessages c6Chan (c6Item :: []) =
      Except.ok { c6Chan with closed := true } ∧
    sendRecentMessages (Chan.mk [] 1 true) (c6Item :: []) = Except.error () :=
  ⟨(replay_on_full_or_closed_queue c6Chan c6Item []).1 rfl (by decide),
   (replay_on_full_or_closed_queue (Chan.mk [] 1 true) c6Item []).2 rfl⟩

def c7Session : ClientSession := ⟨1, 2, "tok", "alice"⟩

/-- C7 counterexample: when marshalling the structured chat event fails,
`Client.ReadPump` does not skip the broadcast — it falls back to handing
the raw text frame to `Hub.Broadcast` (lines 104-106), so a payload is
broadcast for the event after all. -/
theorem chat_marshal_failure_broadcasts_raw :
    (readPumpHandleFrame ⟨[], [], []⟩ c7Session "hi" 9 false).2.1 =
      some (Frame.text "hi") ∧
    some (Frame.text "hi") ≠ (none : Option Frame) := by decide

/-- C7 amended: a marshal failure on the presence-snapshot path broadcasts
nothing (logged skip); a marshal failure on the inbound chat path
broadcasts the raw text frame as a fallback instead of the structured
event; in both cases processing continues — neither the hub loop nor the
read pump terminates because of it. -/
theorem marshal_failure_degrades_to_logged_skip (db : DB) (c : ClientSession)
    (raw : String) (now : Nat) (f : Frame) :
    presenceBroadcastOnMarshal false f = none ∧
    (readPumpHandleFrame db c raw now false).2.1 = some (Frame.text raw) ∧
    (readPumpHandleFrame db c raw now false).2.2 = true :=
  ⟨rfl, rfl, rfl⟩

/-- Witness for the amended C7 at concrete inputs. -/
theorem marshal_failure_degrades_to_logged_skip_witness :
    presenceBroadcastOnMarshal false (Frame.text "p") = none ∧
    (readPumpHandleFrame ⟨[], [], []⟩ c7Session "hello" 4 false).2.1 =
      some (Frame.text "hello") ∧
    (readPumpHandleFrame ⟨[], [], []⟩ c7Session "hello" 4 false).2.2 = true :=
  marshal_failure_degrades_to_logged_skip ⟨[], [], []⟩ c7Session "hello" 4
    (Frame.text "p")

/-- The replay enqueue succeeds wholesale when the queue is open and has
room for every item, appending the encoded history in order. -/
theorem sendRecentMessages_ok :
    ∀ (items : List HistoryItem) (ch : Chan),
      ch.closed = false → ch.buf.length + items.length ≤ ch.cap →
      sendRecentMessages ch items =
        Except.ok { ch with buf := ch.buf ++ items.map encodeHistory } := by
  intro items
  induction items with
  | nil =>
      intro ch h1 h2
      simp [sendRecentMessages]
  | cons item rest ih =>
      intro ch h1 h2
      have hlen : ch.buf.length < ch.cap := by
        simp only [List.length_cons] at h2
        omega
      unfold sendRecentMessages
      rw [if_neg (by rw [h1]; simp), if_pos hlen]
      rw [ih { ch with buf := ch.buf ++ [encodeHistory item] } h1
        (by simp only [List.length_append, List.length_cons, List.length_nil] at h2 ⊢; omega)]
      simp

/-- C8: `LoadRecentMessages` returns at most `limit` of the room's messages,
is exactly the reversal of the newest-first query result, is ordered
oldest-first, and the history replay enqueues the returned items onto the
session's own outbound queue in that order, each encoded with the synthetic
sender "system". -/
theorem recent_messages_oldest_first_replay (db : DB) (roomID limit : Nat)
    (ch : Chan) (hopen : ch.closed = false)
    (hroom : ch.buf.length + (LoadRecentMessages db roomID limit).length ≤ ch.cap) :
    (LoadRecentMessages db roomID limit).length ≤ limit ∧
    LoadRecentMessages db roomID limit =
      (recentMessagesQuery db roomID limit).reverse ∧
    (LoadRecentMessages db roomID limit).Pairwise
      (fun a b => a.createdAt ≤ b.createdAt) ∧
    sendRecentMessages ch (LoadRecentMessages db roomID limit) =
      Except.ok { ch with buf := ch.buf ++
        (LoadRecentMessages db roomID limit).map encodeHistory } ∧
    (∀ item, ∃ w, encodeHistory item = Frame.json w ∧ w.sender = "system") := by
  refine ⟨?_, rfl, ?_, sendRecentMessages_ok _ ch hopen hroom, ?_⟩
  · simp only [LoadRecentMessages, recentMessagesQuery, List.length_reverse,
      List.length_take]
    exact min_le_left _ _
  · have hsorted := pairwise_sortOrd
      (fun a b : HistoryItem => decide (b.createdAt ≤ a.createdAt))
      (fun x y => by
        rcases Nat.le_total y.createdAt x.createdAt with h | h
        · exact Or.inl (decide_eq_true h)
        · exact Or.inr (decide_eq_true h))
      (fun x y z hxy hyz =>
        decide_eq_true (Nat.le_trans (of_decide_eq_true hyz) (of_decide_eq_true hxy)))
      ((db.messages.filter (fun m => m.roomID = roomID)).filterMap
        (fun m => (findUser db.users m.userID).map
          (fun name => (⟨m.content, name, m.createdAt⟩ : HistoryItem))))
    have htake := hsorted.sublist (List.take_sublist limit _)
    have hdesc : (recentMessagesQuery db roomID limit).Pairwise
        (fun a b => b.createdAt ≤ a.createdAt) :=
      htake.imp (fun h => of_decide_eq_true h)
    exact List.pairwise_reverse.mpr hdesc
  · intro item
    exact ⟨_, rfl, rfl⟩

def c8DB : DB :=
  ⟨[(1, "u1"), (2, "u2")], [],
   [⟨1, 9, "first", 10⟩, ⟨2, 9, "second", 20⟩, ⟨1, 9, "third", 30⟩,
    ⟨2, 8, "other", 5⟩]⟩

def c8Chan : Chan := ⟨[], 10, false⟩

/-- Witness for C8 at a concrete database and an empty ten-slot queue. -/
theorem recent_messages_oldest_first_replay_witness :
    (LoadRecentMessages c8DB 9 10).length ≤ 10 ∧
    LoadRecentMessages c8DB 9 10 = (recentMessagesQuery c8DB 9 10).reverse ∧
    (LoadRecentMessages c8DB 9 10).Pairwise
      (fun a b => a.createdAt ≤ b.createdAt) ∧
    sendRecentMessages c8Chan (LoadRecentMessages c8DB 9 10) =
      Except.ok { c8Chan with
        buf := c8Chan.buf ++ (LoadRecentMessages c8DB 9 10).map encodeHistory } ∧
    (∀ item, ∃ w, encodeHistory item = Frame.json w ∧ w.sender = "system") :=
  recent_messages_oldest_first_replay c8DB 9 10 c8Chan rfl (by decide)

def c9Client : Client := ⟨1, "alice"⟩

def c9Chan : Chan := ⟨[Frame.text "pending"], 1, false⟩

def c9Hub : HubState :=
  { roomID := 4, clients := [c9Client], onlineUsers := ["alice"],
    chans := [(1, c9Chan)], lastActivity := 0, db := ⟨[], [], []⟩, now := 0 }

/-- C9: violated by the code.  With the session still registered and its
queue full, the history replay closes the queue (without unregistering the
session); when the read pump exits and the hub processes the Unregister,
`Hub.Run` closes the same channel a second time — in Go, `close` of a
closed channel panics, crashing the process. -/
theorem replay_then_unregister_double_close :
    sendRecentMessages c9Chan [⟨"m", "bob", 1⟩] =
      Except.ok { c9Chan with closed := true } ∧
    hubRun { c9Hub with chans := [(1, { c9Chan with closed := true })] }
      [Event.unregister c9Client] = Except.error () :=
  ⟨rfl, rfl⟩

/-- Every member of a list is bounded by the list's right-fold of `max`. -/
theorem le_foldr_max (l : List Nat) (x : Nat) (hx : x ∈ l) :
    x ≤ l.foldr max 0 := by
  induction l with
  | nil => cases hx
  | cons a as ih =>
      rcases List.mem_cons.mp hx with rfl | h
      · exact le_max_left _ _
      · exact le_trans (ih h) (le_max_right _ _)

/-- A search failing on the first list continues into the second. -/
theorem find?_append_none (p : α → Bool) (l1 l2 : List α)
    (h : l1.find? p = none) : (l1 ++ l2).find? p = l2.find? p := by
  induction l1 with
  | nil => rfl
  | cons a as ih =>
      rw [List.find?_cons] at h
      cases hp : p a with
      | true => rw [hp] at h; cases h
      | false =>
          rw [hp] at h
          rw [List.cons_append, List.find?_cons, hp]
          exact ih h

/-- C10 counterexample: when a room named "general" already exists as
private (creatable through the room API) and the user is not a member, a
connection with an empty room parameter is rejected by the access check,
not admitted to "general". -/
theorem empty_room_param_rejected_when_general_private :
    (handleWebSocketConn [⟨1, "general", false⟩] [] 42 "").1 =
      ConnOutcome.rejected := by decide

/-- With duplicate-free room ids, looking a member room up by its own id
returns that room. -/
theorem find?_id_self (rooms : List RoomRow) (room : RoomRow)
    (hnodup : (rooms.map RoomRow.id).Nodup) (hmem : room ∈ rooms) :
    rooms.find? (fun r => r.id = room.id) = some room := by
  have hsome : (rooms.find? (fun r => r.id = room.id)).isSome := by
    rw [List.find?_isSome]
    exact ⟨room, hmem, by simp⟩
  obtain ⟨room2, hfound2⟩ := Option.isSome_iff_exists.mp hsome
  have hmem2 : room2 ∈ rooms := List.mem_of_find?_eq_some hfound2
  have hid2 : room2.id = room.id := by
    have := List.find?_some hfound2
    simpa using this
  rw [hfound2, List.inj_on_of_nodup_map hnodup hmem2 hmem hid2]

/-- C10 amended: an absent or empty room parameter is treated exactly as
the room name "general", resolved or created through the persistence port;
when no room of that name exists a public "general" is created and the
connection admitted to it; when "general" exists and is public the
connection is admitted to it; when "general" exists as private a member is
still admitted — so a rejection happens only for a non-member of a
pre-existing private "general". -/
theorem empty_room_param_defaults_to_general (rooms : List RoomRow)
    (memberships : List (Nat × Nat)) (u : Nat) :
    (handleWebSocketConn rooms memberships u "" =
      handleWebSocketConn rooms memberships u "general") ∧
    (rooms.find? (fun r => r.name = "general") = none →
      handleWebSocketConn rooms memberships u "" =
        (ConnOutcome.admitted ((rooms.map RoomRow.id).foldr max 0 + 1),
         rooms ++ [⟨(rooms.map RoomRow.id).foldr max 0 + 1, "general", true⟩])) ∧
    (∀ room, rooms.find? (fun r => r.name = "general") = some room →
      room.isPublic = true → (rooms.map RoomRow.id).Nodup →
      (handleWebSocketConn rooms memberships u "").1 =
        ConnOutcome.admitted room.id ∧ room.name = "general") ∧
    (∀ room, rooms.find? (fun r => r.name = "general") = some room →
      room.isPublic = false → (rooms.map RoomRow.id).Nodup →
      (u, room.id) ∈ memberships →
      (handleWebSocketConn rooms memberships u "").1 =
        ConnOutcome.admitted room.id) := by
  have hres : resolveRoomParam "" = "general" := rfl
  refine ⟨by simp [handleWebSocketConn, resolveRoomParam], ?_, ?_, ?_⟩
  · intro hnone
    have hfresh : rooms.find? (fun r =>
        r.id = (rooms.map RoomRow.id).foldr max 0 + 1) = none := by
      rw [List.find?_eq_none]
      intro room hroom
      have := le_foldr_max (rooms.map RoomRow.id) room.id
        (List.mem_map_of_mem RoomRow.id hroom)
      simp only [decide_eq_true_eq]
      omega
    unfold handleWebSocketConn GetOrCreateRoom CanUserAccessRoom
    rw [hres]
    simp only [hnone]
    rw [find?_append_none _ rooms _ hfresh]
    simp [List.find?_cons]
  · intro room hfound hpub hnodup
    have hname : room.name = "general" := by
      have := List.find?_some hfound
      simpa using this
    have hmem : room ∈ rooms := List.mem_of_find?_eq_some hfound
    refine ⟨?_, hname⟩
    unfold handleWebSocketConn GetOrCreateRoom CanUserAccessRoom
    rw [hres]
    simp only [hfound, find?_id_self rooms room hnodup hmem]
    rw [if_pos hpub]
  · intro room hfound hpriv hnodup hmemb
    have hmem : room ∈ rooms := List.mem_of_find?_eq_some hfound
    unfold handleWebSocketConn GetOrCreateRoom CanUserAccessRoom
    rw [hres]
    simp only [hfound, find?_id_self rooms room hnodup hmem]
    rw [if_neg (by rw [hpriv]; simp)]
    simp [hmemb]

/-- Witness for the amended C10: a fresh registry creates a public
"general" with id 1 and admits the connection, and a member of a
pre-existing private "general" is admitted too. -/
theorem empty_room_param_defaults_to_general_witness :
    handleWebSocketConn [] [] 42 "" =
      (ConnOutcome.admitted 1, [⟨1, "general", true⟩]) ∧
    (handleWebSocketConn [⟨1, "general", false⟩] [(42, 1)] 42 "").1 =
      ConnOutcome.admitted 1 :=
  ⟨(empty_room_param_defaults_to_general [] [] 42).2.1 rfl,
   (empty_room_param_defaults_to_general [⟨1, "general", false⟩]
      [(42, 1)] 42).2.2.2 ⟨1, "general", false⟩ (by decide) rfl (by decide)
      (by decide)⟩

end Gochat
